import Mathlib

/-!
Verification of the `tc` token counter: a shallow embedding of the
library (`TokenStats`, `count_tokens`, `count_stats`,
`count_tokens_in_file`) and the CLI binary (`OutputConfig`,
`find_tokenizer_by_name`, the multi-file dispatch loop), together with
theorems settling the specification's claims about them.

Rust strings are modelled as Lean `String`s; the raw byte buffer of a
Rust `&str` is modelled by an explicit UTF-8 encoder (`utf8Encode`), so
that `str::len` becomes the length of that byte list.  The external
tokenizer crate is opaque in the source and is modelled as a record
carrying an `encode` capability that may fail with a message.
-/

namespace TC

/-- Model of the opaque tokenizer handle: the single capability the
program uses is `encode(text, add_special_tokens)`, which yields a
sequence of token ids or fails with a message. -/
structure Tokenizer where
  encode : String → Bool → Except String (List Nat)

/-- The library's error enum (`Error` in `lib.rs`). -/
inductive Error where
  | tokenizerLoad (msg : String)
  | io (msg : String)
  | encoding (msg : String)
deriving DecidableEq

/-- The `Display` rendering of `Error`, from the `thiserror` attributes
in `lib.rs`. -/
def Error.display : Error → String
  | .tokenizerLoad m => "failed to load tokenizer: " ++ m
  | .io m => "io error: " ++ m
  | .encoding m => "failed to encode text: " ++ m

/-- `TokenStats` from `lib.rs`: the three counters. -/
structure TokenStats where
  tokens : Nat
  lines : Nat
  bytes : Nat
deriving DecidableEq

/-- `TokenStats::new`: all counters zero. -/
def TokenStats.new : TokenStats :=
  { tokens := 0, lines := 0, bytes := 0 }

/-- `TokenStats::add`: field-wise accumulation.  The Rust method mutates
`self`; the embedding returns the updated value. -/
def TokenStats.add (a other : TokenStats) : TokenStats :=
  { tokens := a.tokens + other.tokens
    lines := a.lines + other.lines
    bytes := a.bytes + other.bytes }

/-- UTF-8 encoding of one scalar value, by the standard byte layout; the
conditions mirror `Char.utf8Size` so the two split identically. -/
def utf8EncodeChar (c : Char) : List Nat :=
  let n := c.toNat
  if c.val ≤ 0x7F then [n]
  else if c.val ≤ 0x7FF then
    [0xC0 + n / 64, 0x80 + n % 64]
  else if c.val ≤ 0xFFFF then
    [0xE0 + n / 4096, 0x80 + (n / 64) % 64, 0x80 + n % 64]
  else
    [0xF0 + n / 262144, 0x80 + (n / 4096) % 64, 0x80 + (n / 64) % 64,
      0x80 + n % 64]

/-- The UTF-8 byte buffer of a string's characters; Rust's `str::len`
is the length of this list. -/
def utf8Encode : List Char → List Nat
  | [] => []
  | c :: cs => utf8EncodeChar c ++ utf8Encode cs

/-- Split a character list at every newline character; a text with `k`
newlines yields `k + 1` segments (the segment after the last newline may
be empty). -/
def splitNl : List Char → List (List Char)
  | [] => [[]]
  | c :: rest =>
    if c = '\n' then [] :: splitNl rest
    else
      match splitNl rest with
      | [] => [[c]]
      | l :: ls => (c :: l) :: ls

/-- Drop one trailing carriage return, as Rust's `str::lines` does to
each produced line (so that `\r\n` also terminates a line). -/
def stripCr (l : List Char) : List Char :=
  if l.getLast? = some '\x0d' then l.dropLast else l

/-- Rust's `str::lines`: split at `\n`, omit a final empty segment (the
final line terminator is optional), and strip one trailing `\r` from
each line. -/
def rustLines (s : List Char) : List (List Char) :=
  let parts := splitNl s
  (if parts.getLast? = some [] then parts.dropLast else parts).map stripCr

/-- `count_tokens` from `lib.rs`: length of the encoding of the full
text with special-token insertion disabled; an encode failure becomes
`Error.encoding`. -/
def count_tokens (text : String) (tokenizer : Tokenizer) : Except Error Nat :=
  match tokenizer.encode text false with
  | .ok encoding => .ok encoding.length
  | .error e => .error (.encoding e)

/-- `count_stats` from `lib.rs`: tokens via `count_tokens` (propagating
its error), lines via `text.lines().count()`, bytes via `text.len()`. -/
def count_stats (text : String) (tokenizer : Tokenizer) : Except Error TokenStats :=
  match count_tokens text tokenizer with
  | .error e => .error e
  | .ok tokens =>
    .ok { tokens := tokens
          lines := (rustLines text.data).length
          bytes := (utf8Encode text.data).length }

/-- `count_tokens_in_file` from `lib.rs`, with the file system modelled
as a function from paths to the result of `fs::read_to_string`: a read
failure becomes `Error.io` (the `#[from] io::Error` conversion),
otherwise the text is counted by `count_stats`. -/
def count_tokens_in_file (fs : String → Except String String) (path : String)
    (tokenizer : Tokenizer) : Except Error TokenStats :=
  match fs path with
  | .error e => .error (.io e)
  | .ok text => count_stats text tokenizer

/-- The CLI argument record (`Args` in `main.rs`), restricted to the
fields the program reads. -/
structure Args where
  files : List String
  tokenizer_path : Option String
  tokenizer_name : Option String
  tokens_only : Bool
  lines : Bool
  bytes : Bool
deriving DecidableEq

/-- `OutputConfig` from `main.rs`: which of the three counters are
displayed. -/
structure OutputConfig where
  show_tokens : Bool
  show_lines : Bool
  show_bytes : Bool
deriving DecidableEq

/-- `OutputConfig::from_args`: if no display flag is set, show all. -/
def OutputConfig.from_args (args : Args) : OutputConfig :=
  let nothing_specified := !args.tokens_only && !args.lines && !args.bytes
  { show_tokens := args.tokens_only || nothing_specified
    show_lines := args.lines || nothing_specified
    show_bytes := args.bytes || nothing_specified }

/-- Rust's `format!("{:8}", n)` for a non-negative integer: the decimal
digits, right-aligned with spaces to a minimum width of 8. -/
def pad8 (n : Nat) : String :=
  String.mk (List.replicate (8 - (Nat.repr n).length) ' ') ++ Nat.repr n

/-- `Vec::join` on strings: interleave a separator between elements. -/
def joinSep (sep : String) : List String → String
  | [] => ""
  | [x] => x
  | x :: y :: xs => x ++ sep ++ joinSep sep (y :: xs)

/-- `OutputConfig::format_stats`: push the enabled fields (tokens,
lines, bytes, in that order) padded to width 8, join with single
spaces, and append the label after one space when present. -/
def OutputConfig.format_stats (cfg : OutputConfig) (stats : TokenStats)
    (name : Option String) : String :=
  let parts :=
    (if cfg.show_tokens then [pad8 stats.tokens] else []) ++
    (if cfg.show_lines then [pad8 stats.lines] else []) ++
    (if cfg.show_bytes then [pad8 stats.bytes] else [])
  let counts := joinSep " " parts
  match name with
  | some n => counts ++ " " ++ n
  | none => counts

/-- The ambient process environment read by `find_tokenizer_by_name`:
the directory of the current executable (`current_exe` composed with
`parent`), the `HOME` variable, and the file-existence test. -/
structure Env where
  exeDir : Option String
  home : Option String
  pathExists : String → Bool

/-- The candidate list built by `find_tokenizer_by_name`, in source
order: two executable-relative paths, the user config directory, and
two fixed system share directories, each ending in `<name>.json`. -/
def searchPaths (env : Env) (name : String) : List String :=
  let filename := name ++ ".json"
  (match env.exeDir with
   | some d => [d ++ "/../../bin/assets/tokenizers/" ++ filename]
   | none => []) ++
  (match env.exeDir with
   | some d => [d ++ "/../share/tc/tokenizers/" ++ filename]
   | none => []) ++
  (match env.home with
   | some h => [h ++ "/.config/tc/tokenizers/" ++ filename]
   | none => []) ++
  ["/opt/homebrew/share/tc/tokenizers/" ++ filename,
   "/usr/local/share/tc/tokenizers/" ++ filename]

/-- `find_tokenizer_by_name` from `main.rs`: return the first candidate
path that exists, else an error message listing every candidate. -/
def find_tokenizer_by_name (env : Env) (name : String) : Except String String :=
  let paths := searchPaths env name
  match paths.find? env.pathExists with
  | some p => .ok p
  | none =>
    .error ("Tokenizer '" ++ name ++ "' not found. Searched in:\n  " ++
      joinSep "\n  " paths)

/-- One observable output event of the CLI: a line on standard output or
a diagnostic on standard error. -/
inductive Event where
  | out (line : String)
  | err (line : String)
deriving DecidableEq

/-- The loop body of the multi-file branch of `main`: for each file, on
success print a labeled stats line and add into the running total, on
failure print `tc: <file>: <error>` to standard error and continue;
after the last file print the total line labeled `total`. -/
def processFilesGo (cfg : OutputConfig) (tokenizer : Tokenizer)
    (fs : String → Except String String) :
    List String → TokenStats → List Event
  | [], total => [Event.out (cfg.format_stats total (some "total"))]
  | file :: rest, total =>
    match count_tokens_in_file fs file tokenizer with
    | .ok stats =>
      Event.out (cfg.format_stats stats (some file)) ::
        processFilesGo cfg tokenizer fs rest (total.add stats)
    | .error e =>
      Event.err ("tc: " ++ file ++ ": " ++ e.display) ::
        processFilesGo cfg tokenizer fs rest total

/-- The multi-file branch of `main`: process the files in order starting
from a zero total. -/
def runMultiFiles (cfg : OutputConfig) (tokenizer : Tokenizer)
    (fs : String → Except String String) (files : List String) : List Event :=
  processFilesGo cfg tokenizer fs files TokenStats.new

/-- The event the multi-file loop emits for one file. -/
def perFileEvent (cfg : OutputConfig) (tokenizer : Tokenizer)
    (fs : String → Except String String) (file : String) : Event :=
  match count_tokens_in_file fs file tokenizer with
  | .ok stats => Event.out (cfg.format_stats stats (some file))
  | .error e => Event.err ("tc: " ++ file ++ ": " ++ e.display)

/-- The per-file stats when counting the file succeeds, `none` when it
fails. -/
def okStat (fs : String → Except String String) (tokenizer : Tokenizer)
    (file : String) : Option TokenStats :=
  match count_tokens_in_file fs file tokenizer with
  | .ok stats => some stats
  | .error _ => none

/-- Field-wise sum of a list of stats, starting from zero. -/
def sumStats (l : List TokenStats) : TokenStats :=
  l.foldl TokenStats.add TokenStats.new

/-- The specification's line-counting rule, as stated: each newline
delimits a segment, a trailing partial line (text after the last
newline) adds one more segment, a trailing empty line after a final
newline does not, and the empty string has zero lines. -/
def linesSpec (s : List Char) : Nat :=
  if s = [] ∨ s.getLast? = some '\n' then s.count '\n'
  else s.count '\n' + 1

/-- Modelled from the spec: the embedded default tokenizer (the bundled
GPT-2 model, an asset outside the library source).  The spec's encode
contract maps text to a sequence of token ids and yields zero tokens on
empty text, so the model returns the empty sequence there; nonempty
text gets an arbitrary nonempty encoding. -/
def defaultTokenizerModel : Tokenizer :=
  { encode := fun text _ => .ok (if text.data = [] then [] else [0]) }

/-- `splitNl` never returns an empty list of segments. -/
theorem splitNl_ne_nil (s : List Char) : splitNl s ≠ [] := by
  cases s with
  | nil => simp [splitNl]
  | cons c rest =>
    simp only [splitNl]
    split
    · simp
    · split <;> simp

/-- A text with `k` newlines splits into `k + 1` segments. -/
theorem splitNl_length (s : List Char) :
    (splitNl s).length = s.count '\n' + 1 := by
  induction s with
  | nil => simp [splitNl]
  | cons c rest ih =>
    by_cases hc : c = '\n'
    · subst hc
      simp [splitNl, List.count_cons, ih]
    · cases h : splitNl rest with
      | nil => exact absurd h (splitNl_ne_nil rest)
      | cons l ls =>
        rw [h] at ih
        simp only [List.length_cons] at ih
        simp [splitNl, hc, h, List.count_cons]
        omega

/-- Appending a final newline appends one empty segment. -/
theorem splitNl_concat_nl (s : List Char) :
    splitNl (s ++ ['\n']) = splitNl s ++ [[]] := by
  induction s with
  | nil => simp [splitNl]
  | cons c rest ih =>
    by_cases hc : c = '\n'
    · subst hc
      simp [splitNl, ih]
    · cases h : splitNl rest with
      | nil => exact absurd h (splitNl_ne_nil rest)
      | cons l ls =>
        simp [splitNl, hc, h, List.append_eq, ih]

/-- Appending a final non-newline character leaves a nonempty last
segment (it ends in that character). -/
theorem splitNl_concat_ch (s : List Char) (c : Char) (hc : ¬ c = '\n') :
    ∃ t, (splitNl (s ++ [c])).getLast? = some (t ++ [c]) := by
  induction s with
  | nil =>
    refine ⟨[], ?_⟩
    simp [splitNl, hc]
  | cons d rest ih =>
    obtain ⟨t, ht⟩ := ih
    by_cases hd : d = '\n'
    · subst hd
      refine ⟨t, ?_⟩
      cases m : splitNl (rest ++ [c]) with
      | nil => exact absurd m (splitNl_ne_nil _)
      | cons l ls =>
        rw [m] at ht
        simp [splitNl, List.append_eq, m, List.getLast?_cons_cons, ht]
    · cases m : splitNl (rest ++ [c]) with
      | nil => exact absurd m (splitNl_ne_nil _)
      | cons l ls =>
        rw [m] at ht
        cases ls with
        | nil =>
          refine ⟨d :: t, ?_⟩
          simp only [List.getLast?_singleton, Option.some.injEq] at ht
          simp [splitNl, hd, List.append_eq, m, ht]
        | cons l2 ls2 =>
          refine ⟨t, ?_⟩
          simp only [List.getLast?_cons_cons] at ht
          simp [splitNl, hd, List.append_eq, m, List.getLast?_cons_cons, ht]

/-- The number of lines produced by the source's split agrees with the
specification's counting rule. -/
theorem rustLines_length_eq_linesSpec (s : List Char) :
    (rustLines s).length = linesSpec s := by
  rcases List.eq_nil_or_concat s with rfl | ⟨ys, c, rfl⟩
  · simp [rustLines, splitNl, linesSpec]
  · rw [List.concat_eq_append]
    by_cases hc : c = '\n'
    · subst hc
      have hparts := splitNl_concat_nl ys
      have hlast : (splitNl (ys ++ ['\n'])).getLast? = some [] := by
        rw [hparts]; exact List.getLast?_concat _
      have hslast : (ys ++ ['\n']).getLast? = some '\n' := List.getLast?_concat _
      simp only [rustLines, linesSpec]
      rw [if_pos hlast, if_pos (Or.inr hslast), hparts, List.dropLast_concat,
        List.length_map, splitNl_length]
      simp [List.count_append]
    · obtain ⟨t, ht⟩ := splitNl_concat_ch ys c hc
      have hne : ¬ (splitNl (ys ++ [c])).getLast? = some [] := by
        rw [ht]; simp
      have hcond : ¬ (ys ++ [c] = [] ∨ (ys ++ [c]).getLast? = some '\n') := by
        rintro (h | h)
        · exact List.append_ne_nil_of_right_ne_nil ys (by simp) h
        · rw [List.getLast?_concat] at h
          exact hc (Option.some.injEq _ _ ▸ h)
      simp only [rustLines, linesSpec]
      rw [if_neg hne, if_neg hcond, List.length_map, splitNl_length]

/-- The byte list of one character agrees in length with the standard
UTF-8 size of that character. -/
theorem utf8EncodeChar_length_eq_utf8Size (c : Char) :
    (utf8EncodeChar c).length = c.utf8Size := by
  have h1 : UInt32.ofNatCore 0x7F (by decide) = (0x7F : UInt32) := rfl
  have h2 : UInt32.ofNatCore 0x7FF (by decide) = (0x7FF : UInt32) := rfl
  have h3 : UInt32.ofNatCore 0xFFFF (by decide) = (0xFFFF : UInt32) := rfl
  unfold utf8EncodeChar Char.utf8Size
  rw [h1, h2, h3]
  split_ifs <;> simp [*]

/-- Every character occupies at least one byte. -/
theorem utf8EncodeChar_length_pos (c : Char) :
    1 ≤ (utf8EncodeChar c).length := by
  unfold utf8EncodeChar
  split_ifs <;> simp

/-- The UTF-8 byte length of a text is the sum of the per-character
byte sizes. -/
theorem utf8Encode_length_eq_sum (s : List Char) :
    (utf8Encode s).length = (s.map Char.utf8Size).sum := by
  induction s with
  | nil => simp [utf8Encode]
  | cons c cs ih =>
    simp [utf8Encode, List.length_append, utf8EncodeChar_length_eq_utf8Size, ih]

/-- A text has at least as many bytes as characters. -/
theorem length_le_utf8Encode_length (s : List Char) :
    s.length ≤ (utf8Encode s).length := by
  induction s with
  | nil => simp [utf8Encode]
  | cons c cs ih =>
    simp only [utf8Encode, List.length_append, List.length_cons]
    have := utf8EncodeChar_length_pos c
    omega

/-- Only the empty text has zero bytes. -/
theorem utf8Encode_length_eq_zero_iff (s : List Char) :
    (utf8Encode s).length = 0 ↔ s = [] := by
  cases s with
  | nil => simp [utf8Encode]
  | cons c cs =>
    simp only [utf8Encode, List.length_append]
    have := utf8EncodeChar_length_pos c
    constructor
    · intro h
      exact absurd h (by omega)
    · intro h
      simp at h

/-- A text never has more lines than characters. -/
theorem linesSpec_le_length (s : List Char) : linesSpec s ≤ s.length := by
  rcases List.eq_nil_or_concat s with rfl | ⟨ys, c, rfl⟩
  · simp [linesSpec]
  · rw [List.concat_eq_append]
    unfold linesSpec
    split_ifs with h
    · exact List.count_le_length _ _
    · have hc : ¬ c = '\n' := by
        intro hcc
        subst hcc
        exact h (Or.inr (List.getLast?_concat _))
      have hcount := List.count_le_length '\n' ys
      have hsing : List.count '\n' [c] = 0 := by
        simp [List.count_singleton]
        intro hcc
        exact hc hcc
      simp [List.count_append, hsing, List.length_append]
      omega

/-- A nonempty text has at least one line. -/
theorem linesSpec_pos (s : List Char) (h : s ≠ []) : 1 ≤ linesSpec s := by
  rcases List.eq_nil_or_concat s with rfl | ⟨ys, c, rfl⟩
  · exact absurd rfl h
  · rw [List.concat_eq_append]
    unfold linesSpec
    split_ifs with hcond
    · rcases hcond with h1 | h2
      · exact absurd h1 (List.append_ne_nil_of_right_ne_nil ys (by simp))
      · rw [List.getLast?_concat] at h2
        have hc : c = '\n' := Option.some.injEq _ _ ▸ h2
        subst hc
        have hsing : List.count '\n' ['\n'] = 1 := List.count_singleton_self _
        simp [List.count_append, hsing]
    · omega

/-- C1: when `count_stats` succeeds, its `lines` field counts the
newline-delimited segments: one per newline, plus one for a trailing
partial line after the last newline; a trailing empty line after a
final newline is not counted, and the empty string has zero lines. -/
theorem count_stats_lines_eq_linesSpec (text : String) (tok : Tokenizer)
    (r : TokenStats) (h : count_stats text tok = .ok r) :
    r.lines = linesSpec text.data := by
  unfold count_stats at h
  cases he : count_tokens text tok <;> rw [he] at h
  · cases h
  · simp only [Except.ok.injEq] at h
    rw [← h]
    exact rustLines_length_eq_linesSpec text.data

/-- C1 witness: for the text `ab` followed by a newline, the line count
is one. -/
theorem count_stats_lines_eq_linesSpec_witness :
    ({ tokens := 0, lines := 1, bytes := 3 } : TokenStats).lines =
      linesSpec "ab\n".data :=
  count_stats_lines_eq_linesSpec "ab\n" ⟨fun _ _ => .ok []⟩
    { tokens := 0, lines := 1, bytes := 3 } rfl

/-- C4: when `count_stats` succeeds, its `bytes` field is the length of
the raw UTF-8 encoding of the text, each character contributing its
UTF-8 byte size (so multi-byte characters count per byte, not one per
character). -/
theorem count_stats_bytes_eq_utf8 (text : String) (tok : Tokenizer)
    (r : TokenStats) (h : count_stats text tok = .ok r) :
    r.bytes = (utf8Encode text.data).length ∧
    r.bytes = (text.data.map Char.utf8Size).sum := by
  unfold count_stats at h
  cases he : count_tokens text tok <;> rw [he] at h
  · cases h
  · simp only [Except.ok.injEq] at h
    rw [← h]
    exact ⟨rfl, utf8Encode_length_eq_sum text.data⟩

/-- C4 witness: the two-character text `aé` occupies three bytes, since
the accented character is a two-byte character. -/
theorem count_stats_bytes_eq_utf8_witness :
    ({ tokens := 0, lines := 1, bytes := 3 } : TokenStats).bytes =
      (utf8Encode "aé".data).length ∧
    ({ tokens := 0, lines := 1, bytes := 3 } : TokenStats).bytes =
      ("aé".data.map Char.utf8Size).sum :=
  count_stats_bytes_eq_utf8 "aé" ⟨fun _ _ => .ok []⟩
    { tokens := 0, lines := 1, bytes := 3 } rfl

/-- C10: when `count_stats` succeeds, the line count never exceeds the
byte count, and the line count is zero exactly when the byte count is
zero (every nonempty input has at least one line). -/
theorem count_stats_lines_le_bytes (text : String) (tok : Tokenizer)
    (r : TokenStats) (h : count_stats text tok = .ok r) :
    r.lines ≤ r.bytes ∧ (r.lines = 0 ↔ r.bytes = 0) := by
  unfold count_stats at h
  cases he : count_tokens text tok <;> rw [he] at h
  · cases h
  · simp only [Except.ok.injEq] at h
    rw [← h]
    simp only []
    rw [rustLines_length_eq_linesSpec]
    constructor
    · exact le_trans (linesSpec_le_length text.data)
        (length_le_utf8Encode_length text.data)
    · constructor
      · intro hl
        rw [utf8Encode_length_eq_zero_iff]
        by_contra hne
        have := linesSpec_pos text.data hne
        omega
      · intro hb
        rw [utf8Encode_length_eq_zero_iff] at hb
        rw [hb]
        simp [linesSpec]

/-- C10 witness: a two-line, three-byte text has its line count below
its byte count, both nonzero. -/
theorem count_stats_lines_le_bytes_witness :
    ({ tokens := 0, lines := 2, bytes := 3 } : TokenStats).lines ≤
      ({ tokens := 0, lines := 2, bytes := 3 } : TokenStats).bytes ∧
    (({ tokens := 0, lines := 2, bytes := 3 } : TokenStats).lines = 0 ↔
      ({ tokens := 0, lines := 2, bytes := 3 } : TokenStats).bytes = 0) :=
  count_stats_lines_le_bytes "a\nb" ⟨fun _ _ => .ok []⟩
    { tokens := 0, lines := 2, bytes := 3 } rfl

/-- C5: `TokenStats.add` accumulates field-wise (tokens, lines and
bytes each add), and the accumulation is associative and commutative,
so composing more than two stats is order-insensitive. -/
theorem add_fieldwise_assoc_comm (a b c : TokenStats) :
    (a.add b).tokens = a.tokens + b.tokens ∧
    (a.add b).lines = a.lines + b.lines ∧
    (a.add b).bytes = a.bytes + b.bytes ∧
    (a.add b).add c = a.add (b.add c) ∧
    a.add b = b.add a := by
  refine ⟨rfl, rfl, rfl, ?_, ?_⟩ <;>
    simp only [TokenStats.add, TokenStats.mk.injEq] <;> omega

/-- C7: the display configuration derived from the CLI flags shows all
three fields when no flag is set, and in every case at least one field
is shown. -/
theorem from_args_never_empty (a : Args) :
    ((a.tokens_only = false ∧ a.lines = false ∧ a.bytes = false) →
      ((OutputConfig.from_args a).show_tokens = true ∧
       (OutputConfig.from_args a).show_lines = true ∧
       (OutputConfig.from_args a).show_bytes = true)) ∧
    ((OutputConfig.from_args a).show_tokens = true ∨
     (OutputConfig.from_args a).show_lines = true ∨
     (OutputConfig.from_args a).show_bytes = true) := by
  rcases a with ⟨f, tp, tn, t, l, b⟩
  cases t <;> cases l <;> cases b <;> simp [OutputConfig.from_args]

/-- C7 witness: with no display flag set, all three fields are shown. -/
theorem from_args_never_empty_witness :
    ((OutputConfig.from_args ⟨[], none, none, false, false, false⟩).show_tokens = true ∧
     (OutputConfig.from_args ⟨[], none, none, false, false, false⟩).show_lines = true ∧
     (OutputConfig.from_args ⟨[], none, none, false, false, false⟩).show_bytes = true) ∧
    ((OutputConfig.from_args ⟨[], none, none, true, false, false⟩).show_tokens = true ∨
     (OutputConfig.from_args ⟨[], none, none, true, false, false⟩).show_lines = true ∨
     (OutputConfig.from_args ⟨[], none, none, true, false, false⟩).show_bytes = true) :=
  ⟨(from_args_never_empty ⟨[], none, none, false, false, false⟩).1 ⟨rfl, rfl, rfl⟩,
   (from_args_never_empty ⟨[], none, none, true, false, false⟩).2⟩

/-- C3: when the tokenizer's encode succeeds on the full text with
special-token insertion disabled, `count_stats` succeeds and its
`tokens` field is the length of the returned id sequence; when encode
fails, `count_stats` fails with an `Error.encoding` and returns no
stats. -/
theorem count_stats_tokens_from_encode (text : String) (tok : Tokenizer) :
    (∀ ids, tok.encode text false = .ok ids →
      ∃ r, count_stats text tok = .ok r ∧ r.tokens = ids.length) ∧
    (∀ e, tok.encode text false = .error e →
      count_stats text tok = .error (.encoding e)) := by
  constructor
  · intro ids h
    refine ⟨{ tokens := ids.length, lines := (rustLines text.data).length,
              bytes := (utf8Encode text.data).length }, ?_, rfl⟩
    simp [count_stats, count_tokens, h]
  · intro e h
    simp [count_stats, count_tokens, h]

/-- C3 witness: a two-id encoding yields `tokens = 2`; a failing
encoding propagates as an encoding error. -/
theorem count_stats_tokens_from_encode_witness :
    (∃ r, count_stats "x" ⟨fun _ _ => .ok [3, 5]⟩ = .ok r ∧
      r.tokens = ([3, 5] : List Nat).length) ∧
    count_stats "x" ⟨fun _ _ => .error "bad"⟩ = .error (.encoding "bad") :=
  ⟨(count_stats_tokens_from_encode "x" ⟨fun _ _ => .ok [3, 5]⟩).1 [3, 5] rfl,
   (count_stats_tokens_from_encode "x" ⟨fun _ _ => .error "bad"⟩).2 "bad" rfl⟩

/-- C9: counting the empty string succeeds with all three counters
zero, given the encode contract's behaviour on empty text (the opaque
default tokenizer encodes the empty string to the empty sequence). -/
theorem count_stats_empty (tok : Tokenizer)
    (h : tok.encode "" false = .ok []) :
    count_stats "" tok = .ok { tokens := 0, lines := 0, bytes := 0 } := by
  simp [count_stats, count_tokens, h, rustLines, splitNl, utf8Encode]

/-- C9 witness: the spec-modelled default tokenizer satisfies the
encode contract on empty text, so counting the empty string yields the
zero stats. -/
theorem count_stats_empty_witness :
    count_stats "" defaultTokenizerModel =
      .ok { tokens := 0, lines := 0, bytes := 0 } :=
  count_stats_empty defaultTokenizerModel rfl

/-- C8: the formatted line is exactly the enabled fields, in the fixed
tokens-lines-bytes order, each padded, joined by single spaces, with
the label (when present) appended after one space; and the padding of
each field is right alignment in a minimum width of 8: leading spaces
followed by the decimal digits, total length the maximum of 8 and the
digit count. -/
theorem format_stats_shape (cfg : OutputConfig) (stats : TokenStats)
    (lbl : Option String) :
    (cfg.format_stats stats lbl =
      joinSep " "
        (((if cfg.show_tokens then [stats.tokens] else []) ++
          (if cfg.show_lines then [stats.lines] else []) ++
          (if cfg.show_bytes then [stats.bytes] else [])).map pad8) ++
      (match lbl with
       | some n => " " ++ n
       | none => "")) ∧
    (∀ k : Nat,
      (pad8 k).length = max 8 (Nat.repr k).length ∧
      (pad8 k).data =
        List.replicate (8 - (Nat.repr k).length) ' ' ++ (Nat.repr k).data) := by
  constructor
  · have hmap : ((if cfg.show_tokens then [stats.tokens] else []) ++
        (if cfg.show_lines then [stats.lines] else []) ++
        (if cfg.show_bytes then [stats.bytes] else [])).map pad8 =
        (if cfg.show_tokens then [pad8 stats.tokens] else []) ++
        (if cfg.show_lines then [pad8 stats.lines] else []) ++
        (if cfg.show_bytes then [pad8 stats.bytes] else []) := by
      rcases cfg with ⟨t, l, b⟩
      cases t <;> cases l <;> cases b <;> simp
    rw [hmap]
    cases lbl with
    | none => simp [OutputConfig.format_stats]
    | some n => simp [OutputConfig.format_stats, String.append_assoc]
  · intro k
    constructor
    · simp [pad8]
      omega
    · simp [pad8]

/-- Every member of a separator-joined list occurs contiguously inside
the joined string. -/
theorem joinSep_infix (sep : String) (l : List String) (p : String)
    (hp : p ∈ l) : ∃ x y, (joinSep sep l).data = x ++ p.data ++ y := by
  induction l with
  | nil => cases hp
  | cons a l ih =>
    cases l with
    | nil =>
      rcases List.mem_singleton.mp hp with rfl
      exact ⟨[], [], by simp [joinSep]⟩
    | cons b l2 =>
      rcases List.mem_cons.mp hp with rfl | hmem
      · exact ⟨[], (sep ++ joinSep sep (b :: l2)).data, by simp [joinSep]⟩
      · obtain ⟨x, y, hxy⟩ := ih hmem
        refine ⟨(a ++ sep).data ++ x, y, ?_⟩
        simp [joinSep, hxy]

/-- C6: named resolution searches the fixed priority-ordered candidate
list; when no candidate exists it fails with a message containing every
searched path, when the first existing candidate is found it is
returned (every earlier candidate does not exist), and with an
executable directory and a home directory present the candidate list is
exactly the five directories in priority order. -/
theorem find_tokenizer_search_order (env : Env) (name : String) :
    ((∀ q ∈ searchPaths env name, env.pathExists q = false) →
      ∃ msg, find_tokenizer_by_name env name = .error msg ∧
        ∀ p ∈ searchPaths env name, ∃ x y, msg.data = x ++ p.data ++ y) ∧
    (∀ p, (searchPaths env name).find? env.pathExists = some p →
      find_tokenizer_by_name env name = .ok p ∧
      ∃ l1 l2, searchPaths env name = l1 ++ p :: l2 ∧
        (∀ q ∈ l1, env.pathExists q = false) ∧ env.pathExists p = true) ∧
    (∀ d h, env.exeDir = some d → env.home = some h →
      searchPaths env name =
        [d ++ "/../../bin/assets/tokenizers/" ++ (name ++ ".json"),
         d ++ "/../share/tc/tokenizers/" ++ (name ++ ".json"),
         h ++ "/.config/tc/tokenizers/" ++ (name ++ ".json"),
         "/opt/homebrew/share/tc/tokenizers/" ++ (name ++ ".json"),
         "/usr/local/share/tc/tokenizers/" ++ (name ++ ".json")]) := by
  refine ⟨?_, ?_, ?_⟩
  · intro hall
    have hnone : (searchPaths env name).find? env.pathExists = none := by
      rw [List.find?_eq_none]
      intro x hx
      simp [hall x hx]
    refine ⟨"Tokenizer '" ++ name ++ "' not found. Searched in:\n  " ++
      joinSep "\n  " (searchPaths env name), ?_, ?_⟩
    · simp only [find_tokenizer_by_name, hnone]
    · intro p hp
      obtain ⟨x, y, hxy⟩ := joinSep_infix "\n  " (searchPaths env name) p hp
      refine ⟨("Tokenizer '" ++ name ++ "' not found. Searched in:\n  ").data ++ x,
        y, ?_⟩
      simp [hxy]
  · intro p hp
    constructor
    · simp only [find_tokenizer_by_name, hp]
    · obtain ⟨hpb, as, bs, heq, hallas⟩ := List.find?_eq_some.mp hp
      refine ⟨as, bs, heq, ?_, hpb⟩
      intro q hq
      have := hallas q hq
      simpa using this
  · intro d h hd hh
    simp [searchPaths, hd, hh]

/-- C6 witness: with no candidate existing the message lists all five
searched paths; with only the last system directory existing the search
returns it and reports the earlier candidates as absent; and the
candidate list is the five priority-ordered directories. -/
theorem find_tokenizer_search_order_witness :
    (∃ msg, find_tokenizer_by_name ⟨some "/x", some "/h", fun _ => false⟩ "g" =
        .error msg ∧
      ∀ p ∈ searchPaths ⟨some "/x", some "/h", fun _ => false⟩ "g",
        ∃ x y, msg.data = x ++ p.data ++ y) ∧
    (find_tokenizer_by_name
        ⟨none, none, fun p => p == "/usr/local/share/tc/tokenizers/g.json"⟩ "g" =
        .ok "/usr/local/share/tc/tokenizers/g.json" ∧
      ∃ l1 l2,
        searchPaths
          ⟨none, none, fun p => p == "/usr/local/share/tc/tokenizers/g.json"⟩ "g" =
          l1 ++ "/usr/local/share/tc/tokenizers/g.json" :: l2 ∧
        (∀ q ∈ l1,
          (fun p => p == "/usr/local/share/tc/tokenizers/g.json") q = false) ∧
        (fun p => p == "/usr/local/share/tc/tokenizers/g.json")
          "/usr/local/share/tc/tokenizers/g.json" = true) ∧
    searchPaths ⟨some "/x", some "/h", fun _ => false⟩ "g" =
      ["/x" ++ "/../../bin/assets/tokenizers/" ++ ("g" ++ ".json"),
       "/x" ++ "/../share/tc/tokenizers/" ++ ("g" ++ ".json"),
       "/h" ++ "/.config/tc/tokenizers/" ++ ("g" ++ ".json"),
       "/opt/homebrew/share/tc/tokenizers/" ++ ("g" ++ ".json"),
       "/usr/local/share/tc/tokenizers/" ++ ("g" ++ ".json")] :=
  ⟨(find_tokenizer_search_order ⟨some "/x", some "/h", fun _ => false⟩ "g").1
      (by decide),
   (find_tokenizer_search_order
      ⟨none, none, fun p => p == "/usr/local/share/tc/tokenizers/g.json"⟩ "g").2.1
      "/usr/local/share/tc/tokenizers/g.json" (by decide),
   (find_tokenizer_search_order ⟨some "/x", some "/h", fun _ => false⟩ "g").2.2
      "/x" "/h" rfl rfl⟩

/-- The multi-file loop, for any starting total: it emits one event per
file in order (stats line on success, diagnostic on failure) and ends
with a single total line accumulating the successful stats onto the
start total. -/
theorem processFilesGo_spec (cfg : OutputConfig) (tok : Tokenizer)
    (fs : String → Except String String) (files : List String)
    (total : TokenStats) :
    processFilesGo cfg tok fs files total =
      files.map (perFileEvent cfg tok fs) ++
      [Event.out (cfg.format_stats
        (List.foldl TokenStats.add total (files.filterMap (okStat fs tok)))
        (some "total"))] := by
  induction files generalizing total with
  | nil => simp [processFilesGo]
  | cons f rest ih =>
    cases m : count_tokens_in_file fs f tok with
    | ok stats =>
      simp [processFilesGo, m, perFileEvent, okStat, List.filterMap_cons, ih]
    | error e =>
      simp [processFilesGo, m, perFileEvent, okStat, List.filterMap_cons, ih]

/-- C2: in multi-file mode the sources are processed in order, each
emitting a labeled stats line on success or a diagnostic naming the
source on failure, and processing continues past failures; after all
sources, exactly one final line labeled `total` is emitted whose stats
are the field-wise sum of the stats of exactly the sources that
succeeded. -/
theorem runMultiFiles_spec (cfg : OutputConfig) (tok : Tokenizer)
    (fs : String → Except String String) (files : List String)
    (_h2 : 2 ≤ files.length) :
    runMultiFiles cfg tok fs files =
      files.map (perFileEvent cfg tok fs) ++
      [Event.out (cfg.format_stats
        (sumStats (files.filterMap (okStat fs tok))) (some "total"))] := by
  unfold runMultiFiles sumStats
  exact processFilesGo_spec cfg tok fs files TokenStats.new

/-- C2 witness: with a readable first file and an unreadable second
file, the run emits the first file's line, the second file's
diagnostic, and a total over the first file only. -/
theorem runMultiFiles_spec_witness :
    runMultiFiles ⟨true, true, true⟩ ⟨fun _ _ => .ok [7]⟩
      (fun p => if p = "a.txt" then .ok "hi" else .error "no such file")
      ["a.txt", "b.txt"] =
      (["a.txt", "b.txt"].map (perFileEvent ⟨true, true, true⟩
        ⟨fun _ _ => .ok [7]⟩
        (fun p => if p = "a.txt" then .ok "hi" else .error "no such file"))) ++
      [Event.out ((⟨true, true, true⟩ : OutputConfig).format_stats
        (sumStats (["a.txt", "b.txt"].filterMap
          (okStat (fun p => if p = "a.txt" then .ok "hi" else .error "no such file")
            ⟨fun _ _ => .ok [7]⟩)))
        (some "total"))] :=
  runMultiFiles_spec ⟨true, true, true⟩ ⟨fun _ _ => .ok [7]⟩
    (fun p => if p = "a.txt" then .ok "hi" else .error "no such file")
    ["a.txt", "b.txt"] (by decide)

end TC
